import Mathlib

set_option maxRecDepth 100000

/-!
Verification development for the agentcord daemon (Go).

The Go sources are shallowly embedded: Go `string`/`[]byte` values become
`List Nat` of byte values (Go strings are byte sequences; UTF-8 literals are
encoded byte-for-byte), Go `int`/`int64` become `Int`, Go `uint32`/`uint64`
arithmetic is `Nat` with explicit `% 2^32` / `% 2^64`, fallible operations
return `Option`/`Except`, and the file system is an explicit map from paths
to byte contents.  Standard-library services whose exact behaviour none of
the verified properties depend on (printf float formatting, `filepath.Match`
globbing, `filepath.Base`/`Dir`/`Ext`, `filepath.Join`) are supplied through
an explicit environment record so that each theorem quantifies over them.
-/

/-! ## Byte strings (Go `string` / `[]byte`) -/

/-- A Go string or byte slice, as its list of byte values (each `< 256`). -/
abbrev GoStr := List Nat

/-- UTF-8 encoding of a single Unicode code point, as byte values. -/
def utf8Enc (n : Nat) : List Nat :=
  if n < 0x80 then [n]
  else if n < 0x800 then [0xC0 + n / 0x40, 0x80 + n % 0x40]
  else if n < 0x10000 then
    [0xE0 + n / 0x1000, 0x80 + n / 0x40 % 0x40, 0x80 + n % 0x40]
  else
    [0xF0 + n / 0x40000, 0x80 + n / 0x1000 % 0x40, 0x80 + n / 0x40 % 0x40,
      0x80 + n % 0x40]

/-- Encode a Lean string literal as the byte list of its UTF-8 encoding,
    mirroring how Go source-level string literals are stored. -/
def gostr (s : String) : GoStr := (s.data.map (fun c => utf8Enc c.toNat)).flatten

/-! ## IPC frame encoding (internal/discord, frame layer)

Translated from `EncodeFrame` / `DecodeFrame` and the surrounding constants.
A frame is `[4-byte LE opcode][4-byte LE length][payload]`. -/

/-- Opcode for the initial IPC handshake (`OpHandshake`). -/
def OpHandshake : Nat := 0

/-- Opcode for a standard IPC data frame (`OpFrame`). -/
def OpFrame : Nat := 1

/-- Opcode for closing the IPC connection (`OpClose`). -/
def OpClose : Nat := 2

/-- Byte length of the IPC frame header (`frameHeaderSize`). -/
def frameHeaderSize : Nat := 8

/-- Maximum allowed payload size, 1 MiB (`MaxPayloadSize`). -/
def MaxPayloadSize : Nat := 1 <<< 20

/-- Errors of the frame layer.  `payloadTooLarge` is the sentinel
    `ErrPayloadTooLarge`; `readErr` stands for an `io.ReadFull` failure
    (short input). -/
inductive FrameErr where
  | payloadTooLarge
  | readErr
  deriving DecidableEq

/-- Model of `binary.LittleEndian.PutUint32`: the four bytes of `n`
    (a `uint32` value) in little-endian order. -/
def putUint32LE (n : Nat) : List Nat :=
  [n % 256, n / 256 % 256, n / 65536 % 256, n / 16777216 % 256]

/-- Model of `binary.LittleEndian.Uint32`: reassemble a `uint32` from four
    little-endian bytes. -/
def getUint32LE (b0 b1 b2 b3 : Nat) : Nat :=
  b0 % 256 + 256 * (b1 % 256) + 65536 * (b2 % 256) + 16777216 * (b3 % 256)

/-- Model of `EncodeFrame(opcode, payload)`: rejects payloads larger than
    `MaxPayloadSize`, otherwise produces header bytes followed by the
    payload.  `opcode` is a `uint32` value. -/
def EncodeFrame (opcode : Nat) (payload : GoStr) : Except FrameErr GoStr :=
  if MaxPayloadSize < payload.length then .error .payloadTooLarge
  else .ok (putUint32LE opcode ++ putUint32LE payload.length ++ payload)

/-- Model of `DecodeFrame(reader)` over the byte stream `input`: read the
    8-byte header via `io.ReadFull` (short input is `readErr`), reject a
    declared length above `MaxPayloadSize` before touching the payload,
    then read exactly `length` payload bytes.  Returns the opcode, the
    payload, and the unread remainder of the stream. -/
def DecodeFrame (input : GoStr) : Except FrameErr (Nat × GoStr × GoStr) :=
  match input with
  | b0 :: b1 :: b2 :: b3 :: b4 :: b5 :: b6 :: b7 :: rest =>
    let opcode := getUint32LE b0 b1 b2 b3
    let length := getUint32LE b4 b5 b6 b7
    if MaxPayloadSize < length then .error .payloadTooLarge
    else if rest.length < length then .error .readErr
    else .ok (opcode, rest.take length, rest.drop length)
  | _ => .error .readErr

/-! ### Frame lemmas -/

theorem decode_encode_frame (o : Nat) (p : GoStr) (ho : o < 2 ^ 32)
    (hp : p.length ≤ MaxPayloadSize) :
    EncodeFrame o p = .ok (putUint32LE o ++ putUint32LE p.length ++ p) ∧
      DecodeFrame (putUint32LE o ++ putUint32LE p.length ++ p) =
        .ok (o, p, []) := by
  have hmax : MaxPayloadSize = 1048576 := by decide
  have hlen : p.length < 4294967296 := by omega
  constructor
  · simp only [EncodeFrame, if_neg (Nat.not_lt.mpr hp)]
  · simp only [putUint32LE, List.cons_append, List.nil_append, DecodeFrame]
    have hop : o % 256 % 256 + 256 * (o / 256 % 256 % 256) +
        65536 * (o / 65536 % 256 % 256) +
        16777216 * (o / 16777216 % 256 % 256) = o := by omega
    have hl : p.length % 256 % 256 + 256 * (p.length / 256 % 256 % 256) +
        65536 * (p.length / 65536 % 256 % 256) +
        16777216 * (p.length / 16777216 % 256 % 256) = p.length := by omega
    simp only [getUint32LE, hop, hl]
    rw [if_neg (Nat.not_lt.mpr hp), if_neg (Nat.lt_irrefl _)]
    simp

theorem encode_oversize (o : Nat) (p : GoStr) (h : MaxPayloadSize < p.length) :
    EncodeFrame o p = .error .payloadTooLarge := by
  simp only [EncodeFrame, if_pos h]

theorem decode_oversize (b0 b1 b2 b3 b4 b5 b6 b7 : Nat) (rest : GoStr)
    (h : MaxPayloadSize < getUint32LE b4 b5 b6 b7) :
    DecodeFrame (b0 :: b1 :: b2 :: b3 :: b4 :: b5 :: b6 :: b7 :: rest) =
      .error .payloadTooLarge := by
  simp only [DecodeFrame]
  rw [if_pos h]

/-! ## A model of `encoding/json` (Go standard library)

The state store parses and writes JSON records through `encoding/json`.
The model below covers the fragment the store exercises: values are
null / booleans / numbers / strings / arrays / objects; numbers carry
their integer part together with a flag telling whether the literal was
integral (Go refuses to unmarshal a non-integral literal into an `int`
field); object fields keep their textual order, later duplicates
overriding earlier ones at decode time. -/

/-- JSON whitespace bytes: space, tab, newline, carriage return. -/
def isWsB (b : Nat) : Bool := b = 32 || b = 9 || b = 10 || b = 13

/-- Drop leading JSON whitespace. -/
def skipWs (s : GoStr) : GoStr := s.dropWhile isWsB

/-- ASCII decimal digit test. -/
def isDigitB (b : Nat) : Bool := 48 ≤ b && b ≤ 57

/-- A parsed JSON value.  `num v isInt` records the integer part of the
    literal and whether the literal had no fraction/exponent. -/
inductive Json where
  | null
  | bool (b : Bool)
  | num (v : Int) (isInt : Bool)
  | str (s : GoStr)
  | arr (xs : List Json)
  | obj (fields : List (GoStr × Json))

/-- ASCII hex digit value. -/
def hexVal (b : Nat) : Option Nat :=
  if 48 ≤ b ∧ b ≤ 57 then some (b - 48)
  else if 97 ≤ b ∧ b ≤ 102 then some (b - 87)
  else if 65 ≤ b ∧ b ≤ 70 then some (b - 55)
  else none

/-- Single-character JSON string escapes other than `\u`. -/
def escByte (b : Nat) : Option Nat :=
  if b = 34 then some 34
  else if b = 92 then some 92
  else if b = 47 then some 47
  else if b = 98 then some 8
  else if b = 102 then some 12
  else if b = 110 then some 10
  else if b = 114 then some 13
  else if b = 116 then some 9
  else none

/-- Parse the body of a JSON string (the opening quote already consumed),
    returning the decoded bytes and the input after the closing quote.
    `\uXXXX` escapes are encoded directly as the UTF-8 of the code unit
    (surrogate pairing is not modelled). -/
def strBytesAux : GoStr → Option (GoStr × GoStr)
  | [] => none
  | b :: rest =>
    if b = 34 then some ([], rest)
    else if b = 92 then
      match rest with
      | [] => none
      | e :: rest2 =>
        if e = 117 then
          match rest2 with
          | h1 :: h2 :: h3 :: h4 :: rest3 =>
            match hexVal h1, hexVal h2, hexVal h3, hexVal h4 with
            | some v1, some v2, some v3, some v4 =>
              match strBytesAux rest3 with
              | some (s, r) =>
                some (utf8Enc (4096 * v1 + 256 * v2 + 16 * v3 + v4) ++ s, r)
              | none => none
            | _, _, _, _ => none
          | _ => none
        else
          match escByte e with
          | some c =>
            match strBytesAux rest2 with
            | some (s, r) => some (c :: s, r)
            | none => none
          | none => none
    else
      match strBytesAux rest with
      | some (s, r) => some (b :: s, r)
      | none => none

/-- Accumulate a run of ASCII digits into a natural number. -/
def digitsToNat (ds : GoStr) : Nat := ds.foldl (fun a b => a * 10 + (b - 48)) 0

/-- Parse an optional fraction part; reports whether one was present. -/
def parseFrac : GoStr → Option (Bool × GoStr)
  | 46 :: t =>
    if (t.takeWhile isDigitB).isEmpty then none
    else some (true, t.dropWhile isDigitB)
  | s => some (false, s)

/-- Parse an optional exponent part; reports whether one was present. -/
def parseExp (s : GoStr) : Option (Bool × GoStr) :=
  match s with
  | e :: t =>
    if e = 101 ∨ e = 69 then
      let t2 := match t with | 43 :: u => u | 45 :: u => u | _ => t
      if (t2.takeWhile isDigitB).isEmpty then none
      else some (true, t2.dropWhile isDigitB)
    else some (false, s)
  | [] => some (false, [])

/-- Parse a JSON number literal.  The recorded value is the (signed)
    integer part; the flag tells whether the literal was integral. -/
def parseNum (s : GoStr) : Option (Json × GoStr) :=
  let neg := match s with | 45 :: _ => true | _ => false
  let s1 := if neg then s.tail else s
  let ds := s1.takeWhile isDigitB
  if ds.isEmpty then none
  else
    match parseFrac (s1.dropWhile isDigitB) with
    | none => none
    | some (f, r2) =>
      match parseExp r2 with
      | none => none
      | some (e, r3) =>
        let v : Int := if neg then -(digitsToNat ds : Int) else (digitsToNat ds : Int)
        some (.num v (!f && !e), r3)

mutual

/-- Fuel-indexed recursive-descent parse of one JSON value. -/
def parseVal : Nat → GoStr → Option (Json × GoStr)
  | 0, _ => none
  | fuel + 1, input =>
    match skipWs input with
    | [] => none
    | c :: rest =>
      if c = 110 then
        match rest with
        | 117 :: 108 :: 108 :: r => some (.null, r)
        | _ => none
      else if c = 116 then
        match rest with
        | 114 :: 117 :: 101 :: r => some (.bool true, r)
        | _ => none
      else if c = 102 then
        match rest with
        | 97 :: 108 :: 115 :: 101 :: r => some (.bool false, r)
        | _ => none
      else if c = 34 then
        match strBytesAux rest with
        | some (s, r) => some (.str s, r)
        | none => none
      else if c = 45 || isDigitB c then parseNum (c :: rest)
      else if c = 91 then
        match skipWs rest with
        | 93 :: r => some (.arr [], r)
        | _ => parseArrItems fuel rest []
      else if c = 123 then
        match skipWs rest with
        | 125 :: r => some (.obj [], r)
        | _ => parseObjItems fuel rest []
      else none

/-- Parse the comma-separated items of a non-empty JSON array. -/
def parseArrItems : Nat → GoStr → List Json → Option (Json × GoStr)
  | 0, _, _ => none
  | fuel + 1, input, acc =>
    match parseVal fuel input with
    | none => none
    | some (v, r) =>
      match skipWs r with
      | 44 :: r2 => parseArrItems fuel r2 (acc ++ [v])
      | 93 :: r2 => some (.arr (acc ++ [v]), r2)
      | _ => none

/-- Parse the comma-separated members of a non-empty JSON object. -/
def parseObjItems : Nat → GoStr → List (GoStr × Json) → Option (Json × GoStr)
  | 0, _, _ => none
  | fuel + 1, input, acc =>
    match skipWs input with
    | 34 :: r =>
      match strBytesAux r with
      | none => none
      | some (k, r2) =>
        match skipWs r2 with
        | 58 :: r3 =>
          match parseVal fuel r3 with
          | none => none
          | some (v, r4) =>
            match skipWs r4 with
            | 44 :: r5 => parseObjItems fuel r5 (acc ++ [(k, v)])
            | 125 :: r5 => some (.obj (acc ++ [(k, v)]), r5)
            | _ => none
        | _ => none
    | _ => none

end

/-- Parse a complete JSON document, requiring only trailing whitespace
    after the value (as `json.Unmarshal` does). -/
def jsonParse (data : GoStr) : Option Json :=
  match parseVal (data.length + 1) data with
  | some (v, rest) => if (skipWs rest).isEmpty then some v else none
  | none => none

/-! ## Session state schema (internal/session, state types) -/

/-- Latest state file schema version (`CurrentVersion`).  Go `int`. -/
def CurrentVersion : Int := 1

/-- Model of the `State` struct: the session state file schema. -/
structure State where
  Version : Int
  SessionID : GoStr
  SessionStart : Int
  LastActivity : Int
  Project : GoStr
  Branch : GoStr
  CWD : GoStr
  GitRemoteURL : GoStr
  Client : GoStr
  Stopped : Bool
  ToolName : GoStr
  ToolTarget : GoStr
  ActiveFile : GoStr
  AgentState : GoStr
  PermissionMode : GoStr
  HookEvent : GoStr
  deriving DecidableEq

/-- The Go zero value of `State`. -/
def zeroState : State :=
  ⟨0, [], 0, 0, [], [], [], [], [], false, [], [], [], [], [], []⟩

/-- Go `int`/`int64` range check used when decoding JSON numbers into
    integer fields. -/
def intInI64 (n : Int) : Bool :=
  -9223372036854775808 ≤ n && n < 9223372036854775808

/-- Unmarshal a JSON value into an `int`-typed struct field holding `cur`:
    `null` leaves the field, an integral number in range sets it, anything
    else is a type error. -/
def setIntField (j : Json) (cur : Int) : Option Int :=
  match j with
  | .null => some cur
  | .num v true => if intInI64 v then some v else none
  | _ => none

/-- Unmarshal a JSON value into a `string`-typed struct field. -/
def setStrField (j : Json) (cur : GoStr) : Option GoStr :=
  match j with
  | .null => some cur
  | .str s => some s
  | _ => none

/-- Unmarshal a JSON value into a `bool`-typed struct field. -/
def setBoolField (j : Json) (cur : Bool) : Option Bool :=
  match j with
  | .null => some cur
  | .bool b => some b
  | _ => none

/-- Apply one JSON object member to a `State` under Go's struct-tag field
    matching; unknown members are ignored. -/
def applyStateField (s : State) (k : GoStr) (v : Json) : Option State :=
  if k = gostr "$version" then
    (setIntField v s.Version).map (fun x => { s with Version := x })
  else if k = gostr "sessionId" then
    (setStrField v s.SessionID).map (fun x => { s with SessionID := x })
  else if k = gostr "sessionStart" then
    (setIntField v s.SessionStart).map (fun x => { s with SessionStart := x })
  else if k = gostr "lastActivity" then
    (setIntField v s.LastActivity).map (fun x => { s with LastActivity := x })
  else if k = gostr "project" then
    (setStrField v s.Project).map (fun x => { s with Project := x })
  else if k = gostr "branch" then
    (setStrField v s.Branch).map (fun x => { s with Branch := x })
  else if k = gostr "cwd" then
    (setStrField v s.CWD).map (fun x => { s with CWD := x })
  else if k = gostr "gitRemoteUrl" then
    (setStrField v s.GitRemoteURL).map (fun x => { s with GitRemoteURL := x })
  else if k = gostr "client" then
    (setStrField v s.Client).map (fun x => { s with Client := x })
  else if k = gostr "stopped" then
    (setBoolField v s.Stopped).map (fun x => { s with Stopped := x })
  else if k = gostr "toolName" then
    (setStrField v s.ToolName).map (fun x => { s with ToolName := x })
  else if k = gostr "toolTarget" then
    (setStrField v s.ToolTarget).map (fun x => { s with ToolTarget := x })
  else if k = gostr "activeFile" then
    (setStrField v s.ActiveFile).map (fun x => { s with ActiveFile := x })
  else if k = gostr "agentState" then
    (setStrField v s.AgentState).map (fun x => { s with AgentState := x })
  else if k = gostr "permissionMode" then
    (setStrField v s.PermissionMode).map (fun x => { s with PermissionMode := x })
  else if k = gostr "hookEvent" then
    (setStrField v s.HookEvent).map (fun x => { s with HookEvent := x })
  else some s

/-- Apply all object members left to right (later duplicates win). -/
def decodeStateFields : State → List (GoStr × Json) → Option State
  | s, [] => some s
  | s, (k, v) :: rest =>
    match applyStateField s k v with
    | some s' => decodeStateFields s' rest
    | none => none

/-- Unmarshal a JSON value into a `State` starting from `start`
    (`json.Unmarshal` fills fields of the existing value; a top-level
    `null` leaves it untouched and non-object values are type errors). -/
def decodeStateJson (start : State) (j : Json) : Option State :=
  match j with
  | .null => some start
  | .obj fields => decodeStateFields start fields
  | _ => none

/-- Model of `json.Unmarshal(data, &s)` for a fresh `State`. -/
def unmarshalState (data : GoStr) : Option State :=
  (jsonParse data).bind (decodeStateJson zeroState)

/-! ### Marshalling (`json.Marshal` on `State`) -/

/-- Decimal digits of a natural number, as ASCII bytes. -/
def natDecimal (n : Nat) : GoStr := (Nat.toDigits 10 n).map Char.toNat

/-- Decimal rendering of a Go integer (`fmt` `%d`). -/
def intDecimal (n : Int) : GoStr :=
  if n < 0 then 45 :: natDecimal n.natAbs else natDecimal n.natAbs

/-- Lower-case hex digit byte. -/
def hexDigitB (n : Nat) : Nat := if n < 10 then 48 + n else 87 + n

/-- Byte-level JSON string escaping as `encoding/json` performs it
    (quotes, backslash, control characters, HTML-significant bytes). -/
def jsonEscByte (b : Nat) : List Nat :=
  if b = 34 then [92, 34]
  else if b = 92 then [92, 92]
  else if b = 10 then [92, 110]
  else if b = 13 then [92, 114]
  else if b = 9 then [92, 116]
  else if b < 32 ∨ b = 60 ∨ b = 62 ∨ b = 38 then
    [92, 117, 48, 48, hexDigitB (b / 16), hexDigitB (b % 16)]
  else [b]

/-- Render a JSON string literal. -/
def jsonStrBytes (s : GoStr) : GoStr := 34 :: (s.map jsonEscByte).flatten ++ [34]

/-- Render one mandatory `"tag":value` member with a leading comma. -/
def jsonMemberPre (tag : String) (v : GoStr) : GoStr :=
  [44] ++ jsonStrBytes (gostr tag) ++ [58] ++ v

/-- Render one `omitempty` string member (omitted when empty). -/
def jsonOptMember (tag : String) (v : GoStr) : GoStr :=
  if v.isEmpty then [] else jsonMemberPre tag (jsonStrBytes v)

/-- Model of `json.Marshal` on a `State` value: members in struct order,
    the six `omitempty` string fields omitted when empty. -/
def marshalState (s : State) : GoStr :=
  [123] ++ jsonStrBytes (gostr "$version") ++ [58] ++ intDecimal s.Version
    ++ jsonMemberPre "sessionId" (jsonStrBytes s.SessionID)
    ++ jsonMemberPre "sessionStart" (intDecimal s.SessionStart)
    ++ jsonMemberPre "lastActivity" (intDecimal s.LastActivity)
    ++ jsonMemberPre "project" (jsonStrBytes s.Project)
    ++ jsonMemberPre "branch" (jsonStrBytes s.Branch)
    ++ jsonMemberPre "cwd" (jsonStrBytes s.CWD)
    ++ jsonMemberPre "gitRemoteUrl" (jsonStrBytes s.GitRemoteURL)
    ++ jsonMemberPre "client" (jsonStrBytes s.Client)
    ++ jsonMemberPre "stopped" (gostr (if s.Stopped then "true" else "false"))
    ++ jsonOptMember "toolName" s.ToolName
    ++ jsonOptMember "toolTarget" s.ToolTarget
    ++ jsonOptMember "activeFile" s.ActiveFile
    ++ jsonOptMember "agentState" s.AgentState
    ++ jsonOptMember "permissionMode" s.PermissionMode
    ++ jsonOptMember "hookEvent" s.HookEvent
    ++ [125]

/-! ## Versioned migrations (internal/migrate) -/

/-- Model of `migrate.Migration`: a versioned upgrade over raw bytes. -/
structure Migration where
  Version : Int
  Description : GoStr
  Upgrade : GoStr → Option GoStr

/-- Registered migrations for the state file (`StateMigrations`); the
    repository registers none. -/
def StateMigrations : List Migration := []

/-- Model of `migrate.NeedsMigration`. -/
def NeedsMigration (fileVersion currentVersion : Int) (force : Bool)
    (migrations : List Migration) : Bool :=
  if fileVersion ≠ currentVersion then true
  else if force && !migrations.isEmpty then true
  else migrations.any (fun m => fileVersion < m.Version)

/-- Apply sorted migrations sequentially where `version < m.Version`
    (the loop body of `migrate.Run`). -/
def runMigs : GoStr → Int → List Migration → Option (GoStr × Int)
  | data, version, [] => some (data, version)
  | data, version, m :: rest =>
    if version < m.Version then
      match m.Upgrade data with
      | none => none
      | some d2 => runMigs d2 m.Version rest
    else runMigs data version rest

/-- Model of `migrate.Run`: sort by target version ascending, then apply
    sequentially.  `none` is a migration failure. -/
def migrateRun (data : GoStr) (fromVersion : Int) (migrations : List Migration) :
    Option (GoStr × Int) :=
  runMigs data fromVersion
    (migrations.insertionSort (fun a b => a.Version ≤ b.Version))

/-! ## Crash-safe state store (internal/session, state I/O)

The file system is a map from paths to contents; `fsWrite` models both
`os.WriteFile` and the crash-safe `atomicfile.Write` (whose all-or-nothing
replacement is the reason a plain map update is a faithful model), in the
environment where writes succeed. -/

/-- A file system: path bytes to content bytes. -/
abbrev FS := GoStr → Option GoStr

/-- Store `d` at path `p`. -/
def fsWrite (fs : FS) (p d : GoStr) : FS :=
  fun q => if q = p then some d else fs q

/-- Errors of the state store.  `readErr` is an `os.ReadFile` failure,
    `corrupted` the recovered-corruption diagnostic, `migrateFailed` a
    fatal migration error. -/
inductive StoreErr where
  | readErr
  | corrupted
  | migrateFailed
  deriving DecidableEq

/-- Model of `applyMigrations`: a no-op unless migrations are registered
    and needed; on a run, the migrated bytes are re-unmarshalled into the
    current value and the version is advanced. -/
def applyMigrations (s : State) (data : GoStr) : Option State :=
  if StateMigrations.isEmpty
      || !(NeedsMigration s.Version CurrentVersion false StateMigrations) then
    some s
  else
    match migrateRun data s.Version StateMigrations with
    | none => none
    | some (migrated, newVersion) =>
      match (jsonParse migrated).bind (decodeStateJson s) with
      | none => none
      | some s2 => some { s2 with Version := newVersion }

/-- Model of `recoverCorruptedState`: back up the raw bytes to
    `<path>.corrupted`, write a fresh zero-value state at the current
    schema version back to `path`, and return it together with the
    corruption error. -/
def recoverCorruptedState (fs : FS) (path data : GoStr) :
    FS × Option State × Option StoreErr :=
  let fs1 := fsWrite fs (path ++ gostr ".corrupted") data
  let s := { zeroState with Version := CurrentVersion }
  let fs2 := fsWrite fs1 path (marshalState s)
  (fs2, some s, some .corrupted)

/-- Model of `normalizeToCurrentVersion`: back up the raw bytes to
    `<path>.v<N>.bak`, reset the version to current, rewrite the record. -/
def normalizeToCurrentVersion (fs : FS) (s : State) (path data : GoStr) :
    FS × State :=
  let fs1 := fsWrite fs (path ++ gostr ".v" ++ intDecimal s.Version ++ gostr ".bak") data
  let s2 := { s with Version := CurrentVersion }
  let fs2 := fsWrite fs1 path (marshalState s2)
  (fs2, s2)

/-- Model of `ReadState(path)`: read, unmarshal (recovering corruption),
    normalize version 0 to 1, apply migrations, and normalize a
    future-version record down to the current version.  Returns the
    file system after any recovery writes, the state (if any), and the
    error (if any). -/
def ReadState (fs : FS) (path : GoStr) : FS × Option State × Option StoreErr :=
  match fs path with
  | none => (fs, none, some .readErr)
  | some data =>
    match unmarshalState data with
    | none => recoverCorruptedState fs path data
    | some s0 =>
      let s1 := if s0.Version = 0 then { s0 with Version := 1 } else s0
      match applyMigrations s1 data with
      | none => (fs, none, some .migrateFailed)
      | some s2 =>
        if CurrentVersion < s2.Version then
          let (fs2, s3) := normalizeToCurrentVersion fs s2 path data
          (fs2, some s3, none)
        else (fs, some s2, none)

/-! ### Version peeking -/

/-- Last binding of key `k` among the textual members of a JSON object
    (Go's decoder lets later duplicates overwrite earlier ones). -/
def lookupLast (fields : List (GoStr × Json)) (k : GoStr) : Option Json :=
  fields.foldl (fun acc kv => if kv.1 = k then some kv.2 else acc) none

/-- Unmarshal into the anonymous partial struct of `PeekVersion`, which
    has the single field `Version int` tagged `$version`: every other
    member of the record is ignored. -/
def versionProbeDecode (j : Json) : Option Int :=
  match j with
  | .null => some 0
  | .obj fields =>
    match lookupLast fields (gostr "$version") with
    | none => some 0
    | some .null => some 0
    | some (.num v true) => if intInI64 v then some v else none
    | some _ => none
  | _ => none

/-- Model of `PeekVersion(data)`: partial JSON parse extracting only the
    `$version` field; 0 (or an absent field) normalizes to 1; unparseable
    JSON is an error (`none`). -/
def PeekVersion (data : GoStr) : Option Int :=
  match jsonParse data with
  | none => none
  | some j =>
    match versionProbeDecode j with
    | none => none
    | some ver => some (if ver = 0 then 1 else ver)

/-! ## Go string helpers (strings package fragment used by the engine)

`breakOn`, `replaceAll` and `goSplit` model `strings.Index`-based
splitting, `strings.ReplaceAll` and `strings.Split` for non-empty
separators (the only way the engine calls them).  The recursions carry a
byte-length fuel bound, which is never exhausted since every step
consumes at least one byte. -/

/-- Split at the first occurrence of `pat`: `(before, after-the-pattern)`. -/
def breakOn (pat : GoStr) : GoStr → Option (GoStr × GoStr)
  | [] => if pat.isEmpty then some ([], []) else none
  | c :: rest =>
    if pat.isPrefixOf (c :: rest) then some ([], (c :: rest).drop pat.length)
    else (breakOn pat rest).map (fun p => (c :: p.1, p.2))

/-- Fuelled worker for `replaceAll`. -/
def replaceAllF (pat rep : GoStr) : Nat → GoStr → GoStr
  | 0, s => s
  | fuel + 1, s =>
    match breakOn pat s with
    | none => s
    | some (a, b) => a ++ rep ++ replaceAllF pat rep fuel b

/-- Model of `strings.ReplaceAll` for a non-empty pattern. -/
def replaceAll (s pat rep : GoStr) : GoStr :=
  if pat.isEmpty then s else replaceAllF pat rep s.length s

/-- Fuelled worker for `goSplit`. -/
def goSplitF (sep : GoStr) : Nat → GoStr → List GoStr
  | 0, s => [s]
  | fuel + 1, s =>
    match breakOn sep s with
    | none => [s]
    | some (a, b) => a :: goSplitF sep fuel b

/-- Model of `strings.Split` for a non-empty separator. -/
def goSplit (s sep : GoStr) : List GoStr :=
  if sep.isEmpty then [s] else goSplitF sep s.length s

/-- Join with a separator (`strings.Join`). -/
def goJoin (xs : List GoStr) (sep : GoStr) : GoStr := List.intercalate sep xs

/-- ASCII upper-casing of one byte (`strings.ToUpper` on a one-byte
    ASCII string). -/
def upByte (b : Nat) : Nat := if 97 ≤ b ∧ b ≤ 122 then b - 32 else b

/-- Upper-case the first byte of a non-empty string
    (`strings.ToUpper(p[:1]) + p[1:]`). -/
def upFirst (p : GoStr) : GoStr :=
  match p with
  | [] => []
  | b :: rest => upByte b :: rest

/-! ## Environment of opaque standard-library services

Exact printf float rendering and `path/filepath` semantics are irrelevant
to every verified property, so they are quantified over rather than
axiomatised: each record field models the corresponding Go function. -/

/-- Opaque standard-library services consumed by the engine and daemon:
    `fmt.Sprintf` with one float verb, `filepath.Match` (`none` models
    `ErrBadPattern`), `filepath.Base` / `Dir` / `Ext`, and
    `filepath.Join` of two components. -/
structure GoEnv where
  sprintfFloat : GoStr → Rat → GoStr
  filepathMatch : GoStr → GoStr → Option Bool
  filepathBase : GoStr → GoStr
  filepathDir : GoStr → GoStr
  filepathExt : GoStr → GoStr
  filepathJoin : GoStr → GoStr → GoStr

/-! ## Display formatting helpers (internal/config)

Go `float64` values are modelled as exact rationals; the engine's uses
never depend on binary rounding. -/

/-- Model of `config.FormatWithCommas`'s digit-grouping loop. -/
def commaGroup (s : GoStr) : GoStr :=
  if s.length ≤ 3 then s
  else
    (s.enum.map (fun ic =>
      if 0 < ic.1 ∧ (s.length - ic.1) % 3 = 0 then [44, ic.2] else [ic.2])).flatten

/-- Model of `config.FormatWithCommas`: decimal with comma separators,
    the sign stripped, formatted and re-added for negatives. -/
def FormatWithCommas (n : Int) : GoStr :=
  if n < 0 then 45 :: commaGroup (natDecimal n.natAbs)
  else commaGroup (natDecimal n.natAbs)

/-- Model of `config.FormatShort`: abbreviated numbers (1M, 1.5M, 234K,
    500); exact multiples omit the decimal. -/
def FormatShort (env : GoEnv) (n : Int) : GoStr :=
  if 1000000 ≤ n then
    let val : Rat := (n : Rat) / 1000000
    if val.den = 1 then intDecimal val.num ++ gostr "M"
    else env.sprintfFloat (gostr "%.1f") val ++ gostr "M"
  else if 1000 ≤ n then
    let val : Rat := (n : Rat) / 1000
    if val.den = 1 then intDecimal val.num ++ gostr "K"
    else env.sprintfFloat (gostr "%.1f") val ++ gostr "K"
  else intDecimal n

/-- Model of `FormatTokenCount`: "full" groups with commas, anything else
    abbreviates. -/
def FormatTokenCount (env : GoEnv) (tokens : Int) (format : GoStr) : GoStr :=
  if format = gostr "full" then FormatWithCommas tokens
  else FormatShort env tokens

/-- Model of `config.ClientDisplayName`: known clients return their
    registered display name, unknown ids are title-cased on hyphens. -/
def ClientDisplayName (id : GoStr) : GoStr :=
  if id = gostr "claude-code" then gostr "Claude Code"
  else goJoin ((goSplit id (gostr "-")).map upFirst) (gostr " ")

/-- Known model family prefixes stripped by `formatModelShort` and
    `extractModelTier`. -/
def modelFamilies : List GoStr :=
  [gostr "claude-", gostr "gpt-", gostr "gemini-", gostr "o1-", gostr "o3-"]

/-- Strip the first matching family prefix (shared loop of
    `formatModelShort` and `extractModelTier`). -/
def stripFamily (id : GoStr) : GoStr :=
  match modelFamilies.find? (fun p => p.isPrefixOf id) with
  | some p => id.drop p.length
  | none => id

/-- Model of `config.isNumeric`: non-empty and all ASCII digits. -/
def isNumericG (s : GoStr) : Bool := s.all isDigitB && !s.isEmpty

/-- Merge `x` into the last accumulated part (the dot-joining branch of
    `titleCaseModel`). -/
def mergeLast (acc : List GoStr) (x : GoStr) : List GoStr :=
  match acc.getLast? with
  | none => acc
  | some l => acc.dropLast ++ [l ++ x]

/-- Loop of `config.titleCaseModel` over the hyphen-split parts, keeping
    the original previous part for the two-numerics check. -/
def titleAux : List GoStr → Option GoStr → List GoStr → List GoStr
  | [], _, acc => acc
  | p :: rest, prev, acc =>
    if p.isEmpty then titleAux rest (some p) acc
    else if (match prev with
        | some q => isNumericG q && isNumericG p
        | none => false) then
      titleAux rest (some p) (mergeLast acc (46 :: p))
    else titleAux rest (some p) (acc ++ [upFirst p])

/-- Model of `config.titleCaseModel`: hyphens between numerics become
    dots, other parts are title-cased and joined with spaces. -/
def titleCaseModel (s : GoStr) : GoStr :=
  goJoin (titleAux (goSplit s (gostr "-")) none []) (gostr " ")

/-- Model of `config.FormatModelName`: "raw", "full", or (default) short. -/
def FormatModelName (modelID format : GoStr) : GoStr :=
  if format = gostr "raw" then modelID
  else if format = gostr "full" then titleCaseModel modelID
  else titleCaseModel (stripFamily modelID)

/-! ## Presentation engine (internal/session, activity building) -/

/-- Attempt the pattern `gitRemoteRegex` = `github\.com[:/]([^/]+)/([^/.]+)`
    at the head of `s`; mirrors the regex's structure: the literal host, a
    `:` or `/`, a non-empty run without `/` (owner), a `/`, then a
    non-empty run without `/` or `.` (repo). -/
def gitRemoteTry (s : GoStr) : Option (GoStr × GoStr) :=
  if (gostr "github.com").isPrefixOf s then
    match s.drop 10 with
    | c :: r2 =>
      if c = 58 ∨ c = 47 then
        let owner := r2.takeWhile (fun b => b != 47)
        match r2.dropWhile (fun b => b != 47) with
        | 47 :: r4 =>
          let repo := r4.takeWhile (fun b => b != 47 && b != 46)
          if owner.isEmpty || repo.isEmpty then none else some (owner, repo)
        | _ => none
      else none
    | [] => none
  else none

/-- Leftmost-match scan of `gitRemoteRegex` over all start positions. -/
def gitRemoteScanF : Nat → GoStr → Option (GoStr × GoStr)
  | 0, _ => none
  | fuel + 1, s =>
    match gitRemoteTry s with
    | some r => some r
    | none =>
      match s with
      | [] => none
      | _ :: t => gitRemoteScanF fuel t

/-- Model of `parseGitRemote`: owner and repo from a GitHub remote URL,
    empty strings when nothing matches. -/
def parseGitRemote (url : GoStr) : GoStr × GoStr :=
  match gitRemoteScanF (url.length + 1) url with
  | some p => p
  | none => ([], [])

/-- Model of `extractModelTier`: strip a family prefix, then first
    tier-name prefix match wins; fall back to `defaultIcon` or "default". -/
def extractModelTier (model : GoStr) (tierList : List GoStr)
    (defaultIcon : GoStr) : GoStr :=
  let stripped := stripFamily model
  match tierList.find? (fun t => t.isPrefixOf stripped) with
  | some t => t
  | none => if defaultIcon.isEmpty then gostr "default" else defaultIcon

/-- Model of `formatPath`: basename / dir / ext / full-path formats. -/
def formatPath (env : GoEnv) (path format : GoStr) : GoStr :=
  if path.isEmpty then []
  else if format = gostr "basename" then env.filepathBase path
  else if format = gostr "dir" then env.filepathDir path
  else if format = gostr "ext" then env.filepathExt path
  else path

/-- Model of `matchesIgnorePattern`: true when any configured pattern
    matches the working directory (pattern errors are skipped). -/
def matchesIgnorePattern (env : GoEnv) (patterns : List GoStr)
    (cwd : GoStr) : Bool :=
  patterns.any (fun p => (env.filepathMatch p cwd).getD false)

/-- Timestamps of an activity (start of the elapsed timer). -/
structure Timestamps where
  Start : Int
  deriving DecidableEq

/-- Image/text assets of an activity. -/
structure Assets where
  LargeImage : GoStr
  LargeText : GoStr
  SmallImage : GoStr
  SmallText : GoStr
  deriving DecidableEq

/-- A clickable activity button. -/
structure Button where
  Label : GoStr
  URL : GoStr
  deriving DecidableEq

/-- Model of `session.Activity`, the built presence payload. -/
structure Activity where
  Details : GoStr
  State : GoStr
  Timestamps : Timestamps
  Assets : Assets
  Buttons : List Button
  deriving DecidableEq

/-- Model of `session.ActivityConfig` (Go `float64` thresholds as exact
    rationals). -/
structure ActivityConfig where
  DetailsFormat : GoStr
  StateFormat : GoStr
  DetailsNoBranchFormat : GoStr
  StateNoCostFormat : GoStr
  CostFormat : GoStr
  TokenFormat : GoStr
  ModelFormat : GoStr
  ProjectName : GoStr
  IgnoredPatterns : List GoStr
  LargeImage : GoStr
  LargeText : GoStr
  ShowModelIcon : Bool
  ShowRepoButton : Bool
  RepoButtonLabel : GoStr
  CustomButtonLabel : GoStr
  CustomButtonURL : GoStr
  ShowCost : Bool
  ShowTokens : Bool
  ShowBranch : Bool
  TimestampMode : GoStr
  IdleMinutes : Int
  ModelTiers : List GoStr
  DefaultTierIcon : GoStr
  CostShowThreshold : Rat
  TokensShowThreshold : Int
  IdleMode : GoStr
  IdleDetails : GoStr
  IdleState : GoStr

/-- Aggregated JSONL conversation data consumed by the engine. -/
structure JSONLData where
  Model : GoStr
  InputTokens : Int
  OutputTokens : Int
  CacheCreationTokens : Int
  CacheReadTokens : Int
  TurnCount : Int
  ToolUseCount : Int
  UniqueModels : List GoStr

/-- Model of `templateVars`: the variables available to templates. -/
structure TemplateVars where
  Project : GoStr
  Branch : GoStr
  Model : GoStr
  Cost : Rat
  Tokens : Int
  Tool : GoStr
  ToolTarget : GoStr
  File : GoStr
  AgentState : GoStr
  Permission : GoStr
  Client : GoStr
  InputTokens : Int
  OutputTokens : Int
  CacheTokens : Int
  Turns : Int
  GitOwner : GoStr
  GitRepo : GoStr
  DefaultModelFormat : GoStr
  DefaultCostFormat : GoStr
  DefaultTokenFormat : GoStr

/-- Model of `isIdle`: idle detection is disabled for `IdleMinutes == 0`,
    otherwise the session is idle once `now - lastActivity` exceeds the
    configured minutes.  `now` stands for `time.Now().Unix()`. -/
def isIdle (cfg : ActivityConfig) (now lastActivity : Int) : Bool :=
  0 < cfg.IdleMinutes && cfg.IdleMinutes * 60 < now - lastActivity

/-- Model of `buildTemplateVars`: threshold-zeroed cost/token values and
    all display variables derived from state and config. -/
def buildTemplateVars (s : State) (cfg : ActivityConfig) (cost : Rat)
    (totalTokens : Int) (model : GoStr) (jsonl : Option JSONLData) :
    TemplateVars :=
  let project := if cfg.ProjectName.isEmpty then s.Project else cfg.ProjectName
  let cost := if 0 < cfg.CostShowThreshold ∧ cost < cfg.CostShowThreshold
    then 0 else cost
  let totalTokens :=
    if 0 < cfg.TokensShowThreshold ∧ totalTokens < cfg.TokensShowThreshold
    then 0 else totalTokens
  let gitPair := parseGitRemote s.GitRemoteURL
  let quad := match jsonl with
    | none => (0, 0, 0, 0)
    | some j => (j.InputTokens, j.OutputTokens,
        j.CacheCreationTokens + j.CacheReadTokens, j.TurnCount)
  { Project := project
    Branch := s.Branch
    Model := model
    Cost := cost
    Tokens := totalTokens
    Tool := s.ToolName
    ToolTarget := s.ToolTarget
    File := s.ActiveFile
    AgentState := s.AgentState
    Permission := s.PermissionMode
    Client := ClientDisplayName s.Client
    InputTokens := quad.1
    OutputTokens := quad.2.1
    CacheTokens := quad.2.2.1
    Turns := quad.2.2.2
    GitOwner := gitPair.1
    GitRepo := gitPair.2
    DefaultModelFormat := cfg.ModelFormat
    DefaultCostFormat := cfg.CostFormat
    DefaultTokenFormat := cfg.TokenFormat }

/-- Model of `resolveVar`: one template variable by name and format;
    unknown names render as the literal placeholder. -/
def resolveVar (env : GoEnv) (name format : GoStr) (vars : TemplateVars) :
    GoStr :=
  if name = gostr "model" then
    if vars.Model.isEmpty then [] else FormatModelName vars.Model format
  else if name = gostr "cost" then
    let format := if format.isEmpty then gostr "%.2f" else format
    36 :: env.sprintfFloat format vars.Cost
  else if name = gostr "tokens" then FormatTokenCount env vars.Tokens format
  else if name = gostr "input_tokens" then
    FormatTokenCount env vars.InputTokens format
  else if name = gostr "output_tokens" then
    FormatTokenCount env vars.OutputTokens format
  else if name = gostr "cache_tokens" then
    FormatTokenCount env vars.CacheTokens format
  else if name = gostr "project" then vars.Project
  else if name = gostr "branch" then vars.Branch
  else if name = gostr "tool" then vars.Tool
  else if name = gostr "tool_target" then formatPath env vars.ToolTarget format
  else if name = gostr "file" then formatPath env vars.File format
  else if name = gostr "agent_state" then vars.AgentState
  else if name = gostr "permission" then vars.Permission
  else if name = gostr "client" then vars.Client
  else if name = gostr "git_owner" then vars.GitOwner
  else if name = gostr "git_repo" then vars.GitRepo
  else if name = gostr "turns" then intDecimal vars.Turns
  else 123 :: name ++ [125]

/-- ASCII word byte (`\w` in Go regexp): letters, digits, underscore. -/
def isWordB (b : Nat) : Bool :=
  (48 ≤ b && b ≤ 57) || (65 ≤ b && b ≤ 90) || (97 ≤ b && b ≤ 122) || b = 95

/-- Try the pattern `formatVarRegex` = `\{(\w+):([^}]+)\}` at the head of
    the input, returning the two capture groups and the input after the
    match. -/
def matchFmtVar : GoStr → Option (GoStr × GoStr × GoStr)
  | 123 :: rest =>
    let name := rest.takeWhile isWordB
    if name.isEmpty then none
    else
      match rest.dropWhile isWordB with
      | 58 :: r2 =>
        let f := r2.takeWhile (fun b => b != 125)
        if f.isEmpty then none
        else
          match r2.dropWhile (fun b => b != 125) with
          | 125 :: r4 => some (name, f, r4)
          | _ => none
      | _ => none
  | _ => none

/-- Leftmost, non-overlapping replacement of `formatVarRegex` matches
    (the `ReplaceAllStringFunc` pass of `applyTemplate`). -/
def fmtPassF (resolver : GoStr → GoStr → GoStr) : Nat → GoStr → GoStr
  | 0, s => s
  | fuel + 1, s =>
    match s with
    | [] => []
    | c :: rest =>
      match matchFmtVar s with
      | some (name, f, r) => resolver name f ++ fmtPassF resolver fuel r
      | none => c :: fmtPassF resolver fuel rest

/-- Maximum byte length of an activity Details/State line
    (`discordMaxLen`). -/
def discordMaxLen : Nat := 128

/-- The UTF-8 bytes of the ellipsis marker `…` appended on truncation. -/
def ellipsisBytes : GoStr := gostr "…"

/-- The two substitution passes of `applyTemplate`: explicit
    `\x7bvar:format\x7d` placeholders first, then bare placeholders with
    per-field default formats, in source order. -/
def applyTemplatePasses (env : GoEnv) (tmpl : GoStr) (vars : TemplateVars) :
    GoStr :=
  let s := fmtPassF (fun n f => resolveVar env n f vars) tmpl.length tmpl
  let s := replaceAll s (gostr "{model}")
    (resolveVar env (gostr "model") vars.DefaultModelFormat vars)
  let s := replaceAll s (gostr "{cost}")
    (resolveVar env (gostr "cost") vars.DefaultCostFormat vars)
  let s := replaceAll s (gostr "{tokens}")
    (resolveVar env (gostr "tokens") vars.DefaultTokenFormat vars)
  let s := replaceAll s (gostr "{project}") vars.Project
  let s := replaceAll s (gostr "{branch}") vars.Branch
  let s := replaceAll s (gostr "{tool}") vars.Tool
  let s := replaceAll s (gostr "{tool_target}") vars.ToolTarget
  let s := replaceAll s (gostr "{file}") (resolveVar env (gostr "file") [] vars)
  let s := replaceAll s (gostr "{agent_state}") vars.AgentState
  let s := replaceAll s (gostr "{permission}") vars.Permission
  let s := replaceAll s (gostr "{client}")
    (resolveVar env (gostr "client") [] vars)
  let s := replaceAll s (gostr "{input_tokens}")
    (resolveVar env (gostr "input_tokens") vars.DefaultTokenFormat vars)
  let s := replaceAll s (gostr "{output_tokens}")
    (resolveVar env (gostr "output_tokens") vars.DefaultTokenFormat vars)
  let s := replaceAll s (gostr "{cache_tokens}")
    (resolveVar env (gostr "cache_tokens") vars.DefaultTokenFormat vars)
  let s := replaceAll s (gostr "{turns}") (intDecimal vars.Turns)
  let s := replaceAll s (gostr "{git_owner}") vars.GitOwner
  let s := replaceAll s (gostr "{git_repo}") vars.GitRepo
  s

/-- Model of `applyTemplate`: both substitution passes followed by the
    truncation `s = s[:discordMaxLen-1] + "…"` when the rendered line is
    longer than `discordMaxLen` bytes. -/
def applyTemplate (env : GoEnv) (tmpl : GoStr) (vars : TemplateVars) : GoStr :=
  let s := applyTemplatePasses env tmpl vars
  if discordMaxLen < s.length then s.take (discordMaxLen - 1) ++ ellipsisBytes
  else s

/-- Model of `resolveDetails`: the no-branch template variant when the
    branch is empty or branch display is off. -/
def resolveDetails (env : GoEnv) (cfg : ActivityConfig) (vars : TemplateVars) :
    GoStr :=
  if vars.Branch.isEmpty || !cfg.ShowBranch then
    applyTemplate env cfg.DetailsNoBranchFormat vars
  else applyTemplate env cfg.DetailsFormat vars

/-- Model of `resolveState`: the no-cost template variant when cost
    display is off or the cost is zero. -/
def resolveState (env : GoEnv) (cfg : ActivityConfig) (vars : TemplateVars) :
    GoStr :=
  if !cfg.ShowCost || vars.Cost = 0 then
    applyTemplate env cfg.StateNoCostFormat vars
  else applyTemplate env cfg.StateFormat vars

/-- Model of `applyModelIcon`: set the small image to the model-tier
    asset key when enabled and a model is known. -/
def applyModelIcon (a : Activity) (cfg : ActivityConfig) (model : GoStr) :
    Activity :=
  if !cfg.ShowModelIcon || model.isEmpty then a
  else
    { a with Assets :=
        { a.Assets with
          SmallImage := extractModelTier model cfg.ModelTiers cfg.DefaultTierIcon
          SmallText := FormatModelName model cfg.ModelFormat } }

/-- Model of `buildButtons`: the repo-link button then the custom button,
    each when configured. -/
def buildButtons (cfg : ActivityConfig) (remoteURL : GoStr) : List Button :=
  (if cfg.ShowRepoButton && !remoteURL.isEmpty then
    [{ Label := cfg.RepoButtonLabel, URL := remoteURL }] else [])
  ++ (if !cfg.CustomButtonLabel.isEmpty && !cfg.CustomButtonURL.isEmpty then
    [{ Label := cfg.CustomButtonLabel, URL := cfg.CustomButtonURL }] else [])

/-- Model of `buildIdleActivity`: a static payload for "idle_text"
    (keeping the session-start timestamp); `nil` for "last_activity" and
    the default "clear". -/
def buildIdleActivity (s : State) (cfg : ActivityConfig) : Option Activity :=
  if cfg.IdleMode = gostr "idle_text" then
    some
      { Details := cfg.IdleDetails
        State := cfg.IdleState
        Timestamps := { Start := s.SessionStart }
        Assets :=
          { LargeImage := cfg.LargeImage, LargeText := cfg.LargeText
            SmallImage := [], SmallText := [] }
        Buttons := [] }
  else if cfg.IdleMode = gostr "last_activity" then none
  else none

/-- Model of `BuildActivityWithData`: `nil` when stopped, when the CWD
    matches an ignore pattern, or (per idle mode) when idle; otherwise
    the rendered activity.  `now` stands for `time.Now().Unix()`. -/
def BuildActivityWithData (env : GoEnv) (now : Int) (s : State)
    (cfg : ActivityConfig) (cost : Rat) (totalTokens : Int) (model : GoStr)
    (jsonl : Option JSONLData) : Option Activity :=
  if s.Stopped then none
  else if matchesIgnorePattern env cfg.IgnoredPatterns s.CWD then none
  else if isIdle cfg now s.LastActivity then buildIdleActivity s cfg
  else
    let vars := buildTemplateVars s cfg cost totalTokens model jsonl
    let a : Activity :=
      { Details := resolveDetails env cfg vars
        State := resolveState env cfg vars
        Timestamps := { Start := s.SessionStart }
        Assets :=
          { LargeImage := cfg.LargeImage, LargeText := cfg.LargeText
            SmallImage := [], SmallText := [] }
        Buttons := buildButtons cfg s.GitRemoteURL }
    some (applyModelIcon a cfg model)

/-- Model of `BuildActivity`: `BuildActivityWithData` without cost,
    token, model or JSONL data. -/
def BuildActivity (env : GoEnv) (now : Int) (s : State)
    (cfg : ActivityConfig) : Option Activity :=
  BuildActivityWithData env now s cfg 0 0 [] none

/-! ## Multi-client state resolution (daemon, `findLatestState`) -/

/-- Legacy single state file name (`paths.StateFile`). -/
def StateFile : GoStr := gostr "state.json"

/-- The scan loop of `findLatestState` over the glob matches: skip a path
    whose read produced no state at all, otherwise keep the state with
    the strictly greatest `lastActivity` (first seen wins ties).  The
    file system is threaded through because `ReadState` may rewrite
    recovered files. -/
def scanStates (fs : FS) (best : Option State) : List GoStr → FS × Option State
  | [] => (fs, best)
  | p :: rest =>
    let r := ReadState fs p
    match r.2.1 with
    | none => scanStates r.1 best rest
    | some s =>
      let best' := match best with
        | none => some s
        | some b => if b.LastActivity < s.LastActivity then some s else some b
      scanStates r.1 best' rest

/-- Model of `findLatestState(dataDir)`: scan the per-client state files
    (the glob result is passed as `matches`, since directory enumeration
    order is environment-dependent) and return the most recently active
    state; fall back to the legacy `state.json` when no per-client file
    yields a state. -/
def findLatestState (env : GoEnv) (fs : FS) (dataDir : GoStr)
    (globMatches : List GoStr) : FS × Option State × Option StoreErr :=
  let r := scanStates fs none globMatches
  match r.2 with
  | some best => (r.1, some best, none)
  | none => ReadState r.1 (env.filepathJoin dataDir StateFile)

/-! ## Change watcher signal coalescing (internal/session, watcher)

The events channel is created in `NewWatcher`/`NewDirWatcher` as
`make(chan struct\x7b\x7d, 1)`; `notify` performs a `select` with a
`default` arm, so a send either enqueues into free buffer space or is
dropped — it can never block.  The channel is modelled by its number of
pending signals. -/

/-- Capacity of the watcher's events channel: exactly one slot. -/
def watcherEventsCap : Nat := 1

/-- Model of `(*Watcher).notify`: the non-blocking send-or-drop.  Returns
    the new pending count and whether the signal was enqueued (`false`
    means the `default` arm ran, never a block). -/
def notifySend (pending : Nat) : Nat × Bool :=
  if pending < watcherEventsCap then (pending + 1, true) else (pending, false)

/-- Pending-signal count after one `notify` call. -/
def notify (pending : Nat) : Nat := (notifySend pending).1

/-- Pending-signal count after `n` consecutive `notify` calls with no
    intervening receive. -/
def notifyIter : Nat → Nat → Nat
  | 0, pending => pending
  | n + 1, pending => notifyIter n (notify pending)

/-! ## IPC client command sending (internal/discord, client)

`sendCommand` is modelled as a function of the client state; the payload
produced by `json.Marshal(\x7bcmd, args, nonce\x7d)` is abstracted into
`marshalCmd` (a function of the command name and the assigned nonce,
`none` modelling a marshal error), and a successful write appends the
frame to the returned written-frames list. -/

/-- Client connection state: the connection handle (if any) and the
    `uint64` nonce counter. -/
structure DClient where
  conn : Option Nat
  nonce : Nat
  deriving DecidableEq

/-- Errors of `sendCommand`.  `notConnected` is the sentinel
    `ErrNotConnected`. -/
inductive DErr where
  | notConnected
  | marshalErr
  | encodeErr
  deriving DecidableEq

/-- Model of `(*Client).sendCommand`: refuse with `ErrNotConnected` when
    no connection is active (before touching any state); otherwise
    increment the nonce (`uint64` wraparound), marshal the command
    payload, encode an `OpFrame` frame and write it. -/
def sendCommand (marshalCmd : GoStr → Nat → Option GoStr) (c : DClient)
    (cmd : GoStr) : DClient × List GoStr × Option DErr :=
  match c.conn with
  | none => (c, [], some .notConnected)
  | some _ =>
    let c' := { c with nonce := (c.nonce + 1) % 2 ^ 64 }
    match marshalCmd cmd c'.nonce with
    | none => (c', [], some .marshalErr)
    | some payload =>
      match EncodeFrame OpFrame payload with
      | .error _ => (c', [], some .encodeErr)
      | .ok frame => (c', [frame], none)

/-- Model of `(*Client).SetActivity`: a `SET_ACTIVITY` command send. -/
def SetActivity (marshalCmd : GoStr → Nat → Option GoStr) (c : DClient) :
    DClient × List GoStr × Option DErr :=
  sendCommand marshalCmd c (gostr "SET_ACTIVITY")

/-- Model of `(*Client).ClearActivity`: a `SET_ACTIVITY` command send
    with a nil activity. -/
def ClearActivity (marshalCmd : GoStr → Nat → Option GoStr) (c : DClient) :
    DClient × List GoStr × Option DErr :=
  sendCommand marshalCmd c (gostr "SET_ACTIVITY")

/-- The client after `n` successive `sendCommand` calls, the `i`-th call
    using command name `cmds i`. -/
def sendIter (marshalCmd : GoStr → Nat → Option GoStr) (cmds : Nat → GoStr)
    (c : DClient) : Nat → DClient
  | 0 => c
  | n + 1 => (sendCommand marshalCmd (sendIter marshalCmd cmds c n) (cmds n)).1

/-! ## Shared auxiliary lemmas -/

theorem append_ne_self (p s : GoStr) (h : s ≠ []) : p ++ s ≠ p := by
  intro he
  have := congrArg List.length he
  simp only [List.length_append] at this
  have : s.length = 0 := by omega
  exact h (List.length_eq_zero.mp this)

/-! ## Claim theorems -/

/-- C1: Frame round-trip — for every `uint32` opcode (any value, not just
    0/1/2) and every payload of at most 1 MiB, `EncodeFrame` succeeds and
    `DecodeFrame` over the encoded bytes returns exactly the same opcode
    and payload with no error and nothing left unread; in particular the
    decoder never rejects a frame because of its opcode value. -/
theorem frame_roundtrip (o : Nat) (p : GoStr) (ho : o < 2 ^ 32)
    (hp : p.length ≤ MaxPayloadSize) :
    ∃ enc, EncodeFrame o p = .ok enc ∧ DecodeFrame enc = .ok (o, p, []) :=
  ⟨_, (decode_encode_frame o p ho hp).1, (decode_encode_frame o p ho hp).2⟩

theorem frame_roundtrip_witness :
    9 < 2 ^ 32 ∧ ([250, 0, 7] : GoStr).length ≤ MaxPayloadSize ∧
      ∃ enc, EncodeFrame 9 [250, 0, 7] = .ok enc ∧
        DecodeFrame enc = .ok (9, [250, 0, 7], []) :=
  ⟨by decide, by decide, frame_roundtrip 9 [250, 0, 7] (by decide) (by decide)⟩

/-- C2: Oversize rejection with exact boundary — `EncodeFrame` fails with
    the `ErrPayloadTooLarge` sentinel for every payload strictly larger
    than 1 MiB and succeeds at exactly 1 MiB; `DecodeFrame` fails with
    the same sentinel for every header whose declared length exceeds
    1 MiB, for any remaining stream contents (so before reading or
    allocating the payload). -/
theorem frame_oversize_boundary :
    (∀ (o : Nat) (p : GoStr), MaxPayloadSize < p.length →
      EncodeFrame o p = .error .payloadTooLarge) ∧
    (∀ (o : Nat) (p : GoStr), p.length = MaxPayloadSize →
      EncodeFrame o p = .ok (putUint32LE o ++ putUint32LE p.length ++ p)) ∧
    (∀ (b0 b1 b2 b3 b4 b5 b6 b7 : Nat) (rest : GoStr),
      MaxPayloadSize < getUint32LE b4 b5 b6 b7 →
      DecodeFrame (b0 :: b1 :: b2 :: b3 :: b4 :: b5 :: b6 :: b7 :: rest) =
        .error .payloadTooLarge) := by
  refine ⟨fun o p h => encode_oversize o p h, fun o p h => ?_,
    fun b0 b1 b2 b3 b4 b5 b6 b7 rest h => decode_oversize _ _ _ _ _ _ _ _ _ h⟩
  simp only [EncodeFrame, if_neg (Nat.not_lt.mpr (Nat.le_of_eq h))]

theorem frame_oversize_boundary_witness :
    (MaxPayloadSize < (List.replicate 1048577 (0 : Nat)).length ∧
      EncodeFrame 1 (List.replicate 1048577 0) = .error .payloadTooLarge) ∧
    ((List.replicate 1048576 (0 : Nat)).length = MaxPayloadSize ∧
      EncodeFrame 1 (List.replicate 1048576 0) =
        .ok (putUint32LE 1 ++ putUint32LE (List.replicate 1048576 (0 : Nat)).length
          ++ List.replicate 1048576 0)) ∧
    (MaxPayloadSize < getUint32LE 0 0 17 0 ∧
      DecodeFrame [0, 0, 0, 0, 0, 0, 17, 0] = .error .payloadTooLarge) := by
  have h1 : (List.replicate 1048577 (0 : Nat)).length = 1048577 :=
    List.length_replicate 1048577 0
  have h2 : (List.replicate 1048576 (0 : Nat)).length = 1048576 :=
    List.length_replicate 1048576 0
  have hb : MaxPayloadSize < (List.replicate 1048577 (0 : Nat)).length := by
    rw [h1]; decide
  have hc : (List.replicate 1048576 (0 : Nat)).length = MaxPayloadSize := by
    rw [h2]; decide
  have hd : MaxPayloadSize < getUint32LE 0 0 17 0 := by decide
  exact ⟨⟨hb, frame_oversize_boundary.1 _ _ hb⟩,
    ⟨hc, frame_oversize_boundary.2.1 _ _ hc⟩,
    ⟨hd, frame_oversize_boundary.2.2 0 0 0 0 0 0 17 0 [] hd⟩⟩

/-- C3: State corruption recovery — for every path whose contents exist
    but fail JSON unmarshalling, `ReadState` returns a non-nil fresh
    state at the current schema version together with a non-nil error
    (the corruption diagnostic); the original raw bytes end up at
    `<path>.corrupted` and the fresh zero-value state is written back to
    `path`, so the original data is never silently dropped. -/
theorem state_corruption_recovery (fs : FS) (path data : GoStr)
    (hread : fs path = some data) (hbad : unmarshalState data = none) :
    ∃ fs2, ReadState fs path =
        (fs2, some { zeroState with Version := CurrentVersion }, some .corrupted) ∧
      ({ zeroState with Version := CurrentVersion } : State).Version = CurrentVersion ∧
      fs2 (path ++ gostr ".corrupted") = some data ∧
      fs2 path = some (marshalState { zeroState with Version := CurrentVersion }) := by
  have hne : path ++ gostr ".corrupted" ≠ path :=
    append_ne_self path (gostr ".corrupted") (by decide)
  have hmain : ReadState fs path =
      (fsWrite (fsWrite fs (path ++ gostr ".corrupted") data) path
        (marshalState { zeroState with Version := CurrentVersion }),
        some { zeroState with Version := CurrentVersion }, some .corrupted) := by
    simp only [ReadState, hread, hbad, recoverCorruptedState]
  refine ⟨_, hmain, rfl, ?_, ?_⟩
  · simp [fsWrite, hne]
  · simp [fsWrite]

theorem state_corruption_recovery_witness :
    ((fun q => if q = gostr "st" then some (gostr "nope") else none) : FS)
        (gostr "st") = some (gostr "nope") ∧
    unmarshalState (gostr "nope") = none ∧
    ∃ fs2, ReadState
        (fun q => if q = gostr "st" then some (gostr "nope") else none)
        (gostr "st") =
        (fs2, some { zeroState with Version := CurrentVersion }, some .corrupted) ∧
      ({ zeroState with Version := CurrentVersion } : State).Version = CurrentVersion ∧
      fs2 (gostr "st" ++ gostr ".corrupted") = some (gostr "nope") ∧
      fs2 (gostr "st") =
        some (marshalState { zeroState with Version := CurrentVersion }) :=
  ⟨by decide, by decide,
    state_corruption_recovery _ (gostr "st") (gostr "nope") (by decide) (by decide)⟩

/-- C4: Future-version normalization — for every state file that
    unmarshals with stored version strictly greater than the store's
    current version, `ReadState` archives the original raw bytes to
    `<path>.v<N>.bak`, resets the version to current both in the
    returned state and in the rewritten on-disk record, and returns
    without an error. -/
theorem future_version_normalization (fs : FS) (path data : GoStr) (s0 : State)
    (hread : fs path = some data) (hparse : unmarshalState data = some s0)
    (hver : CurrentVersion < s0.Version) :
    ∃ fs2, ReadState fs path =
        (fs2, some { s0 with Version := CurrentVersion }, none) ∧
      ({ s0 with Version := CurrentVersion } : State).Version = CurrentVersion ∧
      fs2 (path ++ gostr ".v" ++ intDecimal s0.Version ++ gostr ".bak") = some data ∧
      fs2 path = some (marshalState { s0 with Version := CurrentVersion }) := by
  have hv0 : ¬ s0.Version = 0 := by
    have : CurrentVersion = 1 := rfl
    omega
  have hmig : applyMigrations s0 data = some s0 := by
    simp [applyMigrations, StateMigrations]
  have hmain : ReadState fs path =
      (fsWrite
        (fsWrite fs (path ++ gostr ".v" ++ intDecimal s0.Version ++ gostr ".bak") data)
        path (marshalState { s0 with Version := CurrentVersion }),
        some { s0 with Version := CurrentVersion }, none) := by
    simp only [ReadState, hread, hparse, if_neg hv0, hmig, if_pos hver,
      normalizeToCurrentVersion]
  refine ⟨_, hmain, rfl, ?_, ?_⟩
  · have hne : path ++ gostr ".v" ++ intDecimal s0.Version ++ gostr ".bak" ≠ path := by
      have : path ++ gostr ".v" ++ intDecimal s0.Version ++ gostr ".bak" =
          path ++ (gostr ".v" ++ (intDecimal s0.Version ++ gostr ".bak")) := by
        simp [List.append_assoc]
      rw [this]
      refine append_ne_self path _ ?_
      have h2 : gostr ".v" = [46, 118] := by decide
      simp [h2]
    simp only [fsWrite]
    rw [if_neg hne]
    simp
  · simp [fsWrite]

theorem future_version_normalization_witness :
    ((fun q => if q = gostr "st" then some (gostr "\x7b\"$version\":5\x7d") else none) : FS)
        (gostr "st") = some (gostr "\x7b\"$version\":5\x7d") ∧
    unmarshalState (gostr "\x7b\"$version\":5\x7d") =
      some { zeroState with Version := 5 } ∧
    CurrentVersion < ({ zeroState with Version := 5 } : State).Version ∧
    ∃ fs2, ReadState
        (fun q => if q = gostr "st" then some (gostr "\x7b\"$version\":5\x7d") else none)
        (gostr "st") =
        (fs2, some { { zeroState with Version := 5 } with Version := CurrentVersion },
          none) ∧
      ({ { zeroState with Version := 5 } with Version := CurrentVersion } : State).Version
          = CurrentVersion ∧
      fs2 (gostr "st" ++ gostr ".v" ++
          intDecimal ({ zeroState with Version := 5 } : State).Version ++ gostr ".bak") =
        some (gostr "\x7b\"$version\":5\x7d") ∧
      fs2 (gostr "st") =
        some (marshalState
          { { zeroState with Version := 5 } with Version := CurrentVersion }) :=
  ⟨by decide, by decide, by decide,
    future_version_normalization _ (gostr "st") (gostr "\x7b\"$version\":5\x7d")
      { zeroState with Version := 5 } (by decide) (by decide) (by decide)⟩

/-! ### Multi-session resolution lemmas -/

/-- The state a path yields: its contents unmarshalled, when both exist. -/
def stateAt (fs : FS) (p : GoStr) : Option State := (fs p).bind unmarshalState

/-- A predicate holding for the value of an `Option`, vacuously for
    `none`. -/
def optAll {α : Type} (P : α → Prop) : Option α → Prop
  | none => True
  | some x => P x

instance {α : Type} (P : α → Prop) [DecidablePred P] (o : Option α) :
    Decidable (optAll P o) := by
  cases o
  · exact isTrue trivial
  · simp only [optAll]; infer_instance

/-- The dominance bound of the winning state: every other yielded state
    has a lower-or-equal last-activity stamp, with equality only for the
    winner itself. -/
def maxBound (sStar st : State) : Prop :=
  st.LastActivity ≤ sStar.LastActivity ∧
    (st.LastActivity = sStar.LastActivity → st = sStar)

theorem readState_missing (fs : FS) (p : GoStr) (h : fs p = none) :
    ReadState fs p = (fs, none, some .readErr) := by
  simp [ReadState, h]

theorem readState_clean (fs : FS) (p d : GoStr) (st : State)
    (hd : fs p = some d) (hst : unmarshalState d = some st)
    (hv : st.Version = 1) : ReadState fs p = (fs, some st, none) := by
  have hmig : applyMigrations st d = some st := by
    simp [applyMigrations, StateMigrations]
  simp only [ReadState, hd, hst, hmig]
  rw [if_neg (by rw [hv]; decide)]
  simp only [hmig]
  rw [if_neg (by rw [hv]; decide)]

theorem scanStates_max (fs : FS) (sStar : State) :
    ∀ (ms : List GoStr) (best : Option State),
    (∀ p ∈ ms, (fs p).isNone ∨ ((stateAt fs p).isSome ∧
      optAll (fun st => st.Version = 1) (stateAt fs p))) →
    (∀ p ∈ ms, optAll (maxBound sStar) (stateAt fs p)) →
    ((∃ p ∈ ms, stateAt fs p = some sStar) ∨ best = some sStar) →
    optAll (maxBound sStar) best →
    scanStates fs best ms = (fs, some sStar) := by
  intro ms
  induction ms with
  | nil =>
    intro best _ _ hmem _
    rcases hmem with ⟨p, hp, _⟩ | hbest
    · exact absurd hp (List.not_mem_nil p)
    · simp [scanStates, hbest]
  | cons p rest ih =>
    intro best hclean hmax hmem hinv
    have hclean' := fun q hq => hclean q (List.mem_cons_of_mem p hq)
    have hmax' := fun q hq => hmax q (List.mem_cons_of_mem p hq)
    rcases hclean p (List.mem_cons_self p rest) with hnone | ⟨hsome, hver⟩
    · -- unreadable file: skipped, nothing changes
      have hfsp : fs p = none := Option.isNone_iff_eq_none.mp hnone
      have hstep : scanStates fs best (p :: rest) = scanStates fs best rest := by
        simp only [scanStates, readState_missing fs p hfsp]
      rw [hstep]
      refine ih best hclean' hmax' ?_ hinv
      rcases hmem with ⟨q, hq, hqs⟩ | hbest
      · rcases List.mem_cons.mp hq with rfl | hq'
        · exfalso
          rw [stateAt, hfsp] at hqs
          exact Option.noConfusion hqs
        · exact Or.inl ⟨q, hq', hqs⟩
      · exact Or.inr hbest
    · -- cleanly parsed file: participates in the comparison
      obtain ⟨st, hstp⟩ := Option.isSome_iff_exists.mp hsome
      obtain ⟨d, hd, hud⟩ := Option.bind_eq_some.mp hstp
      have hv1 : st.Version = 1 := by
        have h := hver
        rw [hstp] at h
        exact h
      have hrs := readState_clean fs p d st hd hud hv1
      have hbd : maxBound sStar st := by
        have h := hmax p (List.mem_cons_self p rest)
        rw [hstp] at h
        exact h
      have hq_of_p : stateAt fs p = some sStar → st = sStar := by
        intro hqs
        rw [hstp] at hqs
        exact Option.some_injective _ hqs
      rcases best with _ | b
      · have hstep : scanStates fs none (p :: rest) = scanStates fs (some st) rest := by
          simp only [scanStates, hrs]
        rw [hstep]
        refine ih (some st) hclean' hmax' ?_ hbd
        rcases hmem with ⟨q, hq, hqs⟩ | hbest
        · rcases List.mem_cons.mp hq with rfl | hq'
          · exact Or.inr (congrArg some (hq_of_p hqs))
          · exact Or.inl ⟨q, hq', hqs⟩
        · exact Option.noConfusion hbest
      · by_cases hlt : b.LastActivity < st.LastActivity
        · have hstep : scanStates fs (some b) (p :: rest) =
              scanStates fs (some st) rest := by
            simp only [scanStates, hrs, if_pos hlt]
          rw [hstep]
          refine ih (some st) hclean' hmax' ?_ hbd
          rcases hmem with ⟨q, hq, hqs⟩ | hbest
          · rcases List.mem_cons.mp hq with rfl | hq'
            · exact Or.inr (congrArg some (hq_of_p hqs))
            · exact Or.inl ⟨q, hq', hqs⟩
          · exfalso
            have hb : b = sStar := Option.some_injective _ hbest
            subst hb
            exact absurd hbd.1 (not_le.mpr hlt)
        · have hstep : scanStates fs (some b) (p :: rest) =
              scanStates fs (some b) rest := by
            simp only [scanStates, hrs, if_neg hlt]
          rw [hstep]
          refine ih (some b) hclean' hmax' ?_ hinv
          rcases hmem with ⟨q, hq, hqs⟩ | hbest
          · rcases List.mem_cons.mp hq with rfl | hq'
            · have hss : st = sStar := hq_of_p hqs
              subst hss
              have h1 : st.LastActivity ≤ b.LastActivity := le_of_not_lt hlt
              have h2 : b.LastActivity ≤ st.LastActivity := hinv.1
              exact Or.inr (congrArg some (hinv.2 (le_antisymm h2 h1)))
            · exact Or.inl ⟨q, hq', hqs⟩
          · exact Or.inr hbest

theorem scanStates_allMissing (fs : FS) :
    ∀ ms, (∀ p ∈ ms, (fs p).isNone) → scanStates fs none ms = (fs, none) := by
  intro ms
  induction ms with
  | nil => intro; simp [scanStates]
  | cons p rest ih =>
    intro h
    have hfsp : fs p = none :=
      Option.isNone_iff_eq_none.mp (h p (List.mem_cons_self p rest))
    simp only [scanStates, readState_missing fs p hfsp]
    exact ih (fun q hq => h q (List.mem_cons_of_mem p hq))

instance (sStar : State) : DecidablePred (maxBound sStar) := fun st => by
  unfold maxBound
  infer_instance

/-- A concrete instantiation of the opaque standard-library services,
    used to evaluate theorems at concrete inputs. -/
def trivEnv : GoEnv where
  sprintfFloat := fun _ _ => []
  filepathMatch := fun _ _ => some false
  filepathBase := id
  filepathDir := id
  filepathExt := id
  filepathJoin := fun a b => a ++ [47] ++ b

/-- C5: Multi-session resolution — over the per-client glob matches (in
    any enumeration order), the scan skips unreadable files without
    aborting and returns the parsed state with the strictly greatest
    `lastActivity` timestamp; when no per-client file yields a state, the
    resolver falls back to reading the single legacy `state.json`. -/
theorem multi_session_resolution :
    (∀ (env : GoEnv) (fs : FS) (dataDir : GoStr) (ms : List GoStr)
      (pStar : GoStr) (sStar : State),
      pStar ∈ ms → stateAt fs pStar = some sStar →
      (∀ p ∈ ms, (fs p).isNone ∨ ((stateAt fs p).isSome ∧
        optAll (fun st => st.Version = 1) (stateAt fs p))) →
      (∀ p ∈ ms, optAll (maxBound sStar) (stateAt fs p)) →
      findLatestState env fs dataDir ms = (fs, some sStar, none)) ∧
    (∀ (env : GoEnv) (fs : FS) (dataDir : GoStr) (ms : List GoStr),
      (∀ p ∈ ms, (fs p).isNone) →
      findLatestState env fs dataDir ms =
        ReadState fs (env.filepathJoin dataDir StateFile)) := by
  constructor
  · intro env fs dataDir ms pStar sStar hmem hstate hclean hmax
    have hscan : scanStates fs none ms = (fs, some sStar) :=
      scanStates_max fs sStar ms none hclean hmax
        (Or.inl ⟨pStar, hmem, hstate⟩) trivial
    simp only [findLatestState, hscan]
  · intro env fs dataDir ms hmiss
    have hscan : scanStates fs none ms = (fs, none) :=
      scanStates_allMissing fs ms hmiss
    simp only [findLatestState, hscan]

theorem multi_session_resolution_witness :
    (gostr "b.json" ∈ [gostr "b.json", gostr "zz.json", gostr "a.json", gostr "c.json"] ∧
     stateAt
        (fun q => if q = gostr "a.json"
            then some (gostr "\x7b\"$version\":1,\"lastActivity\":10\x7d")
          else if q = gostr "b.json"
            then some (gostr "\x7b\"$version\":1,\"lastActivity\":30\x7d")
          else if q = gostr "c.json"
            then some (gostr "\x7b\"$version\":1,\"lastActivity\":20\x7d")
          else none)
        (gostr "b.json") =
        some { zeroState with Version := 1, LastActivity := 30 } ∧
     findLatestState trivEnv
        (fun q => if q = gostr "a.json"
            then some (gostr "\x7b\"$version\":1,\"lastActivity\":10\x7d")
          else if q = gostr "b.json"
            then some (gostr "\x7b\"$version\":1,\"lastActivity\":30\x7d")
          else if q = gostr "c.json"
            then some (gostr "\x7b\"$version\":1,\"lastActivity\":20\x7d")
          else none)
        (gostr "dir")
        [gostr "b.json", gostr "zz.json", gostr "a.json", gostr "c.json"] =
        ((fun q => if q = gostr "a.json"
            then some (gostr "\x7b\"$version\":1,\"lastActivity\":10\x7d")
          else if q = gostr "b.json"
            then some (gostr "\x7b\"$version\":1,\"lastActivity\":30\x7d")
          else if q = gostr "c.json"
            then some (gostr "\x7b\"$version\":1,\"lastActivity\":20\x7d")
          else none),
          some { zeroState with Version := 1, LastActivity := 30 }, none)) ∧
    findLatestState trivEnv (fun _ => none) (gostr "dir") [gostr "x.json"] =
      ReadState (fun _ => none) (trivEnv.filepathJoin (gostr "dir") StateFile) := by
  refine ⟨⟨by decide, by decide, ?_⟩, ?_⟩
  · exact multi_session_resolution.1 trivEnv _ (gostr "dir") _ (gostr "b.json")
      { zeroState with Version := 1, LastActivity := 30 }
      (by decide) (by decide) (by decide) (by decide)
  · exact multi_session_resolution.2 trivEnv (fun _ => none) (gostr "dir")
      [gostr "x.json"] (by decide)

/-- C6: Idle semantics of payload building — for a non-stopped state
    whose working directory matches no ignore pattern: the build returns
    nil when idle detection is enabled, the session is idle, and the idle
    mode is "clear" or unset; under "idle_text" it returns a static
    payload whose details/state lines are the configured idle strings and
    whose elapsed-time origin is the session-start timestamp; and a
    recent-enough session (or disabled idle detection) never yields nil. -/
theorem idle_semantics (env : GoEnv) (now : Int) (s : State)
    (cfg : ActivityConfig) (cost : Rat) (tok : Int) (model : GoStr)
    (jsonl : Option JSONLData)
    (hstop : s.Stopped = false)
    (hign : matchesIgnorePattern env cfg.IgnoredPatterns s.CWD = false) :
    (0 < cfg.IdleMinutes → cfg.IdleMinutes * 60 < now - s.LastActivity →
      cfg.IdleMode = gostr "clear" ∨ cfg.IdleMode = [] →
      BuildActivityWithData env now s cfg cost tok model jsonl = none) ∧
    (0 < cfg.IdleMinutes → cfg.IdleMinutes * 60 < now - s.LastActivity →
      cfg.IdleMode = gostr "idle_text" →
      ∃ a, BuildActivityWithData env now s cfg cost tok model jsonl = some a ∧
        a.Details = cfg.IdleDetails ∧ a.State = cfg.IdleState ∧
        a.Timestamps.Start = s.SessionStart) ∧
    (now - s.LastActivity ≤ cfg.IdleMinutes * 60 ∨ cfg.IdleMinutes = 0 →
      (BuildActivityWithData env now s cfg cost tok model jsonl).isSome) := by
  refine ⟨?_, ?_, ?_⟩
  · intro h1 h2 h3
    have hidle : isIdle cfg now s.LastActivity = true := by
      simp only [isIdle, Bool.and_eq_true, decide_eq_true_eq]
      exact ⟨h1, h2⟩
    simp only [BuildActivityWithData, hstop, hign, hidle, Bool.false_eq_true,
      if_false, if_true]
    rcases h3 with h3 | h3
    · simp only [buildIdleActivity, h3]
      rw [if_neg (by decide), if_neg (by decide)]
    · simp only [buildIdleActivity, h3]
      rw [if_neg (by decide), if_neg (by decide)]
  · intro h1 h2 h3
    have hidle : isIdle cfg now s.LastActivity = true := by
      simp only [isIdle, Bool.and_eq_true, decide_eq_true_eq]
      exact ⟨h1, h2⟩
    simp only [BuildActivityWithData, hstop, hign, hidle, Bool.false_eq_true,
      if_false, if_true]
    simp only [buildIdleActivity, h3, if_pos rfl]
    exact ⟨_, rfl, rfl, rfl, rfl⟩
  · intro h
    have hidle : isIdle cfg now s.LastActivity = false := by
      have hnot : ¬ (0 < cfg.IdleMinutes ∧
          cfg.IdleMinutes * 60 < now - s.LastActivity) := by
        rcases h with h | h <;> omega
      by_contra hc
      have htrue : isIdle cfg now s.LastActivity = true := by
        revert hc
        cases isIdle cfg now s.LastActivity <;> simp
      simp only [isIdle, Bool.and_eq_true, decide_eq_true_eq] at htrue
      exact hnot htrue
    simp only [BuildActivityWithData, hstop, hign, hidle, Bool.false_eq_true,
      if_false]
    simp

/-- A concrete activity configuration with one idle minute, "clear" idle
    mode and idle strings, used to instantiate the idle-semantics
    theorem. -/
def cfgBase : ActivityConfig :=
  ⟨[], [], [], [], [], [], [], [], [], [], [], false, false, [], [], [],
    false, false, false, [], 1, [], [], 0, 0, gostr "clear", gostr "Idle",
    gostr "zzz"⟩

theorem idle_semantics_witness :
    (zeroState.Stopped = false ∧
     matchesIgnorePattern trivEnv cfgBase.IgnoredPatterns zeroState.CWD = false ∧
     0 < cfgBase.IdleMinutes ∧
     cfgBase.IdleMinutes * 60 < 1000 - zeroState.LastActivity ∧
     cfgBase.IdleMode = gostr "clear" ∧
     BuildActivityWithData trivEnv 1000 zeroState cfgBase 0 0 [] none = none) ∧
    (∃ a, BuildActivityWithData trivEnv 1000 zeroState
        { cfgBase with IdleMode := gostr "idle_text" } 0 0 [] none = some a ∧
      a.Details = ({ cfgBase with IdleMode := gostr "idle_text" } :
        ActivityConfig).IdleDetails ∧
      a.State = ({ cfgBase with IdleMode := gostr "idle_text" } :
        ActivityConfig).IdleState ∧
      a.Timestamps.Start = zeroState.SessionStart) ∧
    ((10 : Int) - zeroState.LastActivity ≤ cfgBase.IdleMinutes * 60 ∧
     (BuildActivityWithData trivEnv 10 zeroState cfgBase 0 0 [] none).isSome) := by
  refine ⟨⟨by decide, by decide, by decide, by decide, by decide, ?_⟩, ?_, by decide, ?_⟩
  · exact (idle_semantics trivEnv 1000 zeroState cfgBase 0 0 [] none
      (by decide) (by decide)).1 (by decide) (by decide) (Or.inl (by decide))
  · exact (idle_semantics trivEnv 1000 zeroState
      { cfgBase with IdleMode := gostr "idle_text" } 0 0 [] none
      (by decide) (by decide)).2.1 (by decide) (by decide) (by decide)
  · exact (idle_semantics trivEnv 10 zeroState cfgBase 0 0 [] none
      (by decide) (by decide)).2.2 (Or.inl (by decide))

/-- C7 (amended): Output line truncation — a rendered line of at most 128
    bytes is returned unmodified with no ellipsis appended; a longer line
    is cut to its first 127 bytes followed by the three-byte UTF-8
    ellipsis marker, so the produced line is 130 bytes (128 characters
    when the kept prefix is single-byte text) and ends with `…`. -/
theorem output_line_truncation (env : GoEnv) (tmpl : GoStr)
    (vars : TemplateVars) :
    ((applyTemplatePasses env tmpl vars).length ≤ discordMaxLen →
      applyTemplate env tmpl vars = applyTemplatePasses env tmpl vars) ∧
    (discordMaxLen < (applyTemplatePasses env tmpl vars).length →
      applyTemplate env tmpl vars =
        (applyTemplatePasses env tmpl vars).take (discordMaxLen - 1) ++
          ellipsisBytes ∧
      (applyTemplate env tmpl vars).length = discordMaxLen + 2 ∧
      ellipsisBytes <:+ applyTemplate env tmpl vars) := by
  constructor
  · intro h
    simp only [applyTemplate]
    rw [if_neg (Nat.not_lt.mpr h)]
  · intro h
    have heq : applyTemplate env tmpl vars =
        (applyTemplatePasses env tmpl vars).take (discordMaxLen - 1) ++
          ellipsisBytes := by
      simp only [applyTemplate]
      rw [if_pos h]
    refine ⟨heq, ?_, ?_⟩
    · rw [heq]
      have hl : ellipsisBytes.length = 3 := by decide
      have hmax : discordMaxLen = 128 := rfl
      simp only [List.length_append, List.length_take, hl, hmax]
      rw [hmax] at h
      omega
    · rw [heq]
      exact ⟨_, rfl⟩

/-- A 129-byte all-ASCII details template (129 copies of `a`), longer
    than the presence-service line limit. -/
def longTemplate : GoStr := List.replicate 129 97

/-- A configuration whose no-branch details template is `longTemplate`. -/
def cexCfg : ActivityConfig :=
  { cfgBase with DetailsNoBranchFormat := longTemplate }

/-- An all-empty variable assignment. -/
def zeroVars : TemplateVars :=
  ⟨[], [], [], 0, 0, [], [], [], [], [], [], 0, 0, 0, 0, [], [], [], [], []⟩

theorem output_line_truncation_witness :
    ((applyTemplatePasses trivEnv [] zeroVars).length ≤ discordMaxLen ∧
      applyTemplate trivEnv [] zeroVars = applyTemplatePasses trivEnv [] zeroVars) ∧
    (discordMaxLen < (applyTemplatePasses trivEnv longTemplate zeroVars).length ∧
      applyTemplate trivEnv longTemplate zeroVars =
        (applyTemplatePasses trivEnv longTemplate zeroVars).take
          (discordMaxLen - 1) ++ ellipsisBytes ∧
      (applyTemplate trivEnv longTemplate zeroVars).length = discordMaxLen + 2 ∧
      ellipsisBytes <:+ applyTemplate trivEnv longTemplate zeroVars) :=
  ⟨⟨by decide, (output_line_truncation trivEnv [] zeroVars).1 (by decide)⟩,
    by decide, (output_line_truncation trivEnv longTemplate zeroVars).2 (by decide)⟩

/-- C7 (counterexample to the claim as stated): with a 129-byte all-ASCII
    details template, the built activity's rendered details line is 130
    bytes long and ends with the ellipsis — strictly longer than the
    128-byte presence-service maximum the claim promises it never
    exceeds. -/
theorem output_line_truncation_cex :
    ((BuildActivityWithData trivEnv 0 zeroState cexCfg 0 0 [] none).map
        (fun a => (a.Details.length, ellipsisBytes.isSuffixOf a.Details))) =
      some (130, true) ∧ discordMaxLen < 130 := by
  constructor
  · decide
  · decide

/-- C8: Version peeking as a cheap standalone probe — whenever the raw
    bytes parse as a JSON object whose `$version` member is an integral
    in-range number, `PeekVersion` returns that version (normalizing 0 to
    1) no matter what the remaining members hold, i.e. without requiring
    that the record deserializes into a valid state; an absent `$version`
    member yields 1. -/
theorem peek_version_probe (data : GoStr) (fields : List (GoStr × Json))
    (hparse : jsonParse data = some (Json.obj fields)) :
    (∀ n : Int, lookupLast fields (gostr "$version") = some (Json.num n true) →
      intInI64 n = true → PeekVersion data = some (if n = 0 then 1 else n)) ∧
    (lookupLast fields (gostr "$version") = none → PeekVersion data = some 1) := by
  constructor
  · intro n hl hr
    simp only [PeekVersion, hparse, versionProbeDecode, hl, hr, if_true]
  · intro hl
    simp only [PeekVersion, hparse, versionProbeDecode, hl]
    rfl

theorem peek_version_probe_witness :
    jsonParse (gostr "\x7b\"$version\":3,\"project\":5\x7d") =
      some (Json.obj [(gostr "$version", Json.num 3 true),
        (gostr "project", Json.num 5 true)]) ∧
    lookupLast [(gostr "$version", Json.num 3 true),
        (gostr "project", Json.num 5 true)] (gostr "$version") =
      some (Json.num 3 true) ∧
    intInI64 3 = true ∧
    unmarshalState (gostr "\x7b\"$version\":3,\"project\":5\x7d") = none ∧
    PeekVersion (gostr "\x7b\"$version\":3,\"project\":5\x7d") =
      some (if (3 : Int) = 0 then 1 else 3) ∧
    jsonParse (gostr "\x7b\"project\":\"x\"\x7d") =
      some (Json.obj [(gostr "project", Json.str (gostr "x"))]) ∧
    lookupLast [(gostr "project", Json.str (gostr "x"))] (gostr "$version") =
      none ∧
    PeekVersion (gostr "\x7b\"project\":\"x\"\x7d") = some 1 := by
  refine ⟨rfl, rfl, by decide, by decide, ?_, rfl, rfl, ?_⟩
  · exact (peek_version_probe (gostr "\x7b\"$version\":3,\"project\":5\x7d")
      [(gostr "$version", Json.num 3 true), (gostr "project", Json.num 5 true)]
      rfl).1 3 rfl (by decide)
  · exact (peek_version_probe (gostr "\x7b\"project\":\"x\"\x7d")
      [(gostr "project", Json.str (gostr "x"))] rfl).2 rfl

/-- C9: Watcher signal coalescing — the events channel has a buffer of
    exactly one slot, and since `notify` is a non-blocking send-or-drop,
    any number of consecutive `notify` calls with no intervening receive
    keeps at most one signal pending; from an empty channel, `n ≥ 1`
    rapid notifications leave exactly one pending signal. -/
theorem watcher_signal_coalescing :
    watcherEventsCap = 1 ∧
    (∀ p n, p ≤ watcherEventsCap → notifyIter n p ≤ watcherEventsCap) ∧
    (∀ n, 1 ≤ n → notifyIter n 0 = 1) := by
  have hstep : ∀ p, p ≤ 1 → notify p ≤ 1 := by
    intro p hp
    simp only [notify, notifySend, watcherEventsCap]
    split
    · omega
    · omega
  have hiter : ∀ n p, p ≤ 1 → notifyIter n p ≤ 1 := by
    intro n
    induction n with
    | zero => intro p hp; exact hp
    | succ m ih =>
      intro p hp
      simp only [notifyIter]
      exact ih (notify p) (hstep p hp)
  have hone : ∀ n, notifyIter n 1 = 1 := by
    intro n
    induction n with
    | zero => rfl
    | succ m ih =>
      simp only [notifyIter]
      have h1 : notify 1 = 1 := rfl
      rw [h1]
      exact ih
  refine ⟨rfl, fun p n hp => hiter n p hp, fun n hn => ?_⟩
  match n, hn with
  | m + 1, _ =>
    simp only [notifyIter]
    have h0 : notify 0 = 1 := rfl
    rw [h0]
    exact hone m

theorem watcher_signal_coalescing_witness :
    (1 ≤ watcherEventsCap ∧ notifyIter 5 1 ≤ watcherEventsCap) ∧
    (1 ≤ 5 ∧ notifyIter 5 0 = 1) :=
  ⟨⟨by decide, watcher_signal_coalescing.2.1 1 5 (by decide)⟩,
    ⟨by decide, watcher_signal_coalescing.2.2 5 (by decide)⟩⟩

/-! ### IPC client lemmas -/

theorem sendCommand_connected (f : GoStr → Nat → Option GoStr) (c : DClient)
    (cmd : GoStr) (h : Nat) (hconn : c.conn = some h) :
    (sendCommand f c cmd).1 =
      { conn := some h, nonce := (c.nonce + 1) % 2 ^ 64 } := by
  simp only [sendCommand, hconn]
  cases hm : f cmd ((c.nonce + 1) % 2 ^ 64) with
  | none => rfl
  | some payload =>
    simp only [hm]
    cases he : EncodeFrame OpFrame payload <;> simp [he]

theorem sendIter_closed (f : GoStr → Nat → Option GoStr) (cmds : Nat → GoStr)
    (h : Nat) : ∀ k, k < 2 ^ 64 → sendIter f cmds ⟨some h, 0⟩ k = ⟨some h, k⟩ := by
  intro k
  induction k with
  | zero => intro; rfl
  | succ m ih =>
    intro hk
    have hm : m < 2 ^ 64 := by omega
    simp only [sendIter]
    rw [ih hm]
    rw [sendCommand_connected f ⟨some h, m⟩ (cmds m) h rfl]
    have hmod : (m + 1) % 2 ^ 64 = m + 1 := Nat.mod_eq_of_lt hk
    simp only [hmod]

/-- C10: No-connection refusal and nonce discipline — with no active
    connection, `sendCommand` (hence `SetActivity` and `ClearActivity`)
    returns the `ErrNotConnected` sentinel, leaves the client unchanged
    and writes no bytes; with a connection, exactly one nonce increment
    happens per call, so the nonces of the first `n` sends of a fresh
    connected client are `1, …, n`, a strictly increasing sequence (for
    any run short enough not to wrap the `uint64` counter). -/
theorem send_requires_connection :
    (∀ (f : GoStr → Nat → Option GoStr) (c : DClient) (cmd : GoStr),
      c.conn = none →
      sendCommand f c cmd = (c, [], some .notConnected) ∧
      SetActivity f c = (c, [], some .notConnected) ∧
      ClearActivity f c = (c, [], some .notConnected)) ∧
    (∀ (f : GoStr → Nat → Option GoStr) (c : DClient) (cmd : GoStr) (h : Nat),
      c.conn = some h →
      ((sendCommand f c cmd).1).nonce = (c.nonce + 1) % 2 ^ 64 ∧
      ((sendCommand f c cmd).1).conn = c.conn) ∧
    (∀ (f : GoStr → Nat → Option GoStr) (cmds : Nat → GoStr) (h : Nat) (n : Nat),
      n < 2 ^ 64 →
      (∀ k, k ≤ n → (sendIter f cmds ⟨some h, 0⟩ k).nonce = k) ∧
      (∀ i j, i < j → j ≤ n →
        (sendIter f cmds ⟨some h, 0⟩ i).nonce <
          (sendIter f cmds ⟨some h, 0⟩ j).nonce)) := by
  refine ⟨?_, ?_, ?_⟩
  · intro f c cmd hconn
    refine ⟨?_, ?_, ?_⟩ <;>
      simp only [SetActivity, ClearActivity, sendCommand, hconn]
  · intro f c cmd h hconn
    rw [sendCommand_connected f c cmd h hconn, hconn]
    exact ⟨rfl, rfl⟩
  · intro f cmds h n hn
    have hk : ∀ k, k ≤ n → (sendIter f cmds ⟨some h, 0⟩ k).nonce = k := by
      intro k hkn
      rw [sendIter_closed f cmds h k (by omega)]
    refine ⟨hk, fun i j hij hjn => ?_⟩
    rw [hk i (by omega), hk j hjn]
    exact hij

theorem send_requires_connection_witness :
    ((⟨none, 7⟩ : DClient).conn = none ∧
      sendCommand (fun _ _ => some []) ⟨none, 7⟩ (gostr "PING") =
        (⟨none, 7⟩, [], some .notConnected) ∧
      SetActivity (fun _ _ => some []) ⟨none, 7⟩ =
        (⟨none, 7⟩, [], some .notConnected) ∧
      ClearActivity (fun _ _ => some []) ⟨none, 7⟩ =
        (⟨none, 7⟩, [], some .notConnected)) ∧
    ((⟨some 0, 3⟩ : DClient).conn = some 0 ∧
      ((sendCommand (fun _ _ => some []) ⟨some 0, 3⟩ (gostr "PING")).1).nonce =
        (3 + 1) % 2 ^ 64) ∧
    ((3 : Nat) < 2 ^ 64 ∧ (2 : Nat) < 3 ∧
      (sendIter (fun _ _ => some []) (fun _ => []) ⟨some 0, 0⟩ 2).nonce <
        (sendIter (fun _ _ => some []) (fun _ => []) ⟨some 0, 0⟩ 3).nonce) := by
  refine ⟨⟨rfl, ?_⟩, ⟨rfl, ?_⟩, ⟨by decide, by decide, ?_⟩⟩
  · exact send_requires_connection.1 (fun _ _ => some []) ⟨none, 7⟩
      (gostr "PING") rfl
  · exact ((send_requires_connection.2.1 (fun _ _ => some []) ⟨some 0, 3⟩
      (gostr "PING") 0 rfl).1)
  · exact (send_requires_connection.2.2 (fun _ _ => some []) (fun _ => []) 0 3
      (by decide)).2 2 3 (by decide) (by decide)
